import Mathlib

/-!
Verification of the conversation-turn orchestration of a chat-session proxy
(Express + SQLite backend).  The embedding below translates the backend
source: the single-table SQLite store in src/backend/src/database.ts and the
request handlers of the Express server (src/unnamed/part_001).

Modelling conventions:
* The messages table is a list of rows in rowid (insertion) order; the
  AUTOINCREMENT id counter is the nextId field and survives deletes.
* CURRENT_TIMESTAMP is an explicit Nat parameter passed to each insert;
  wall-clock monotonicity becomes a hypothesis where a theorem needs it.
* SQL ORDER BY over a non-unique key does not fix the relative order of
  equal keys; the executable history function below resolves ties by table
  scan order (a deterministic refinement), while historyResultSpec states
  exactly the contract the SQL text guarantees.
* The completion service is an oracle argument: a buffered answer or error
  for model.invoke, a fragment list with a normal/abrupt end for
  model.stream.
-/

/-- Role column of the messages table: the source stores the literal strings
user and assistant. -/
inductive Role where
  | user
  | assistant
deriving DecidableEq, Repr

/-- Message interface of database.ts: id and timestamp are optional because
callers construct messages without them and saveMessage fills in only id. -/
structure Message where
  id : Option Nat := none
  session_id : String
  role : Role
  content : String
  timestamp : Option Nat := none
deriving DecidableEq, Repr

/-- One persisted row of the messages table: id INTEGER PRIMARY KEY
AUTOINCREMENT, session_id TEXT, role TEXT, content TEXT, timestamp DATETIME
DEFAULT CURRENT_TIMESTAMP. -/
structure Row where
  id : Nat
  session_id : String
  role : Role
  content : String
  timestamp : Nat
deriving DecidableEq, Repr

/-- The SQLite database: rows in rowid (insertion) order plus the
AUTOINCREMENT counter, which deletes do not reset. -/
structure Store where
  rows : List Row
  nextId : Nat
deriving DecidableEq, Repr

/-- Insertion step of a stable sort on the timestamp column: a new element
goes before the first strictly later row and after every row with an equal
or earlier timestamp. -/
def insertTS (r : Row) : List Row → List Row
  | [] => [r]
  | x :: xs => if r.timestamp ≤ x.timestamp then r :: x :: xs else x :: insertTS r xs

/-- Stable sort of rows by timestamp ascending, preserving the relative
order of rows with equal timestamps. -/
def sortTS : List Row → List Row
  | [] => []
  | x :: xs => insertTS x (sortTS xs)

/-- Rows of the messages table belonging to one session, in table scan
order (the WHERE session_id = ? filter). -/
def sessionRows (s : Store) (sessionId : String) : List Row :=
  s.rows.filter (fun r => r.session_id = sessionId)

/-- getConversationHistory of database.ts: SELECT * FROM messages WHERE
session_id = ? ORDER BY timestamp ASC.  The ORDER BY names only the
timestamp column, so SQL fixes no order among rows with equal timestamps;
this executable model resolves such ties by table scan order.  The contract
the SQL text itself guarantees is historyResultSpec below. -/
def getConversationHistory (s : Store) (sessionId : String) : List Row :=
  sortTS (sessionRows s sessionId)

/-- Contract of the history query exactly as the SQL text states it: the
result is some permutation of the session rows that is non-decreasing in the
timestamp column.  Any list satisfying this is a legal answer of ORDER BY
timestamp ASC; the relative order of equal timestamps is not constrained. -/
def historyResultSpec (s : Store) (sessionId : String) (l : List Row) : Prop :=
  l.Perm (sessionRows s sessionId) ∧ l.Chain' (fun a b => a.timestamp ≤ b.timestamp)

instance (s : Store) (sid : String) (l : List Row) :
    Decidable (historyResultSpec s sid l) :=
  inferInstanceAs (Decidable (_ ∧ _))

/-- Property the spec claims of history results: equal-timestamp rows appear
in ascending id order (the claimed deterministic tiebreak). -/
def tieBrokenById (l : List Row) : Prop :=
  l.Chain' (fun a b => a.timestamp < b.timestamp ∨ (a.timestamp = b.timestamp ∧ a.id < b.id))

instance (l : List Row) : Decidable (tieBrokenById l) :=
  inferInstanceAs (Decidable (List.Chain' _ l))

/-- saveMessage of database.ts: INSERT INTO messages (session_id, role,
content) VALUES (?, ?, ?), with id assigned by AUTOINCREMENT and timestamp
by DEFAULT CURRENT_TIMESTAMP (the t argument).  The return value is the
spread of the input message with only id overwritten by lastID: the
timestamp field of the returned message is whatever the caller passed. -/
def saveMessage (s : Store) (m : Message) (t : Nat) : Store × Message :=
  ({ rows := s.rows ++
      [{ id := s.nextId, session_id := m.session_id, role := m.role,
         content := m.content, timestamp := t }],
     nextId := s.nextId + 1 },
   { m with id := some s.nextId })

/-- Insertion step of a sort by String descending (stable, though the input
is deduplicated before sorting so stability is moot). -/
def insertDesc (a : String) : List String → List String
  | [] => [a]
  | x :: xs => if x < a then a :: x :: xs else x :: insertDesc a xs

/-- Sort a list of strings in descending order. -/
def sortDesc : List String → List String
  | [] => []
  | x :: xs => insertDesc x (sortDesc xs)

/-- getAllSessions of database.ts: SELECT DISTINCT session_id FROM messages
GROUP BY session_id ORDER BY session_id DESC.  Distinct session ids of the
table, sorted descending by the string order (SQLite BINARY collation is
byte order, which for UTF-8 agrees with code-point order). -/
def getAllSessions (s : Store) : List String :=
  sortDesc ((s.rows.map (fun r => r.session_id)).dedup)

/-- deleteSession of database.ts: DELETE FROM messages WHERE session_id = ?.
Removes every row of the session; the AUTOINCREMENT counter is untouched. -/
def deleteSession (s : Store) (sessionId : String) : Store :=
  { s with rows := s.rows.filter (fun r => ¬ r.session_id = sessionId) }

/-- createSession of database.ts: INSERT INTO messages (session_id, role,
content) VALUES (?, assistant, empty string) — one placeholder row marking
the session as existing. -/
def createSession (s : Store) (sessionId : String) (t : Nat) : Store :=
  { rows := s.rows ++
      [{ id := s.nextId, session_id := sessionId, role := .assistant,
         content := "", timestamp := t }],
    nextId := s.nextId + 1 }

/-- Hexadecimal digit character for a nibble value. -/
def hexDigit (n : Nat) : Char :=
  if n < 10 then Char.ofNat (48 + n) else Char.ofNat (87 + n)

/-- Escape of one character under JSON.stringify: quote, backslash and the
named control characters get two-character escapes, the remaining control
characters a unicode escape, everything else passes through. -/
def jsonEscapeChar (ch : Char) : String :=
  if ch = '"' then "\\\""
  else if ch = '\\' then "\\\\"
  else if ch = '\x08' then "\\b"
  else if ch = '\x09' then "\\t"
  else if ch = '\x0a' then "\\n"
  else if ch = '\x0c' then "\\f"
  else if ch = '\x0d' then "\\r"
  else if ch.toNat < 32 then
    "\\u00" ++ String.singleton (hexDigit (ch.toNat / 16)) ++
      String.singleton (hexDigit (ch.toNat % 16))
  else String.singleton ch

/-- JSON string literal for s, as JSON.stringify produces it. -/
def jsonQuote (s : String) : String :=
  "\"" ++ String.join (s.toList.map jsonEscapeChar) ++ "\""

/-- One streamed SSE event of the handler: data: JSON.stringify with a
content field, followed by the blank line (the source template literal
data: ...\n\n). -/
def contentEventData (c : String) : String :=
  "data: " ++ ("\x7b\"content\":" ++ jsonQuote c ++ "\x7d") ++ "\n\n"

/-- Terminal SSE event of the handler: data: JSON.stringify of done true
followed by the blank line. -/
def doneEventData : String :=
  "data: " ++ "\x7b\"done\":true\x7d" ++ "\n\n"

/-- LangChain message variants the handler builds: HumanMessage and
AIMessage, modelled as a sum tagged by role. -/
inductive LCMessage where
  | human (content : String)
  | ai (content : String)
deriving DecidableEq, Repr

/-- Per-row conversion of the handler: role user becomes HumanMessage,
otherwise AIMessage, content carried over unchanged. -/
def rowToLC (r : Row) : LCMessage :=
  match r.role with
  | .user => .human r.content
  | .assistant => .ai r.content

/-- Transcript assembly of the chat handler: history.slice(0, -1) mapped
row by row through rowToLC, then one pushed HumanMessage carrying the
incoming text. -/
def assembleTranscript (history : List Row) (msg : String) : List LCMessage :=
  history.dropLast.map rowToLC ++ [.human msg]

/-- Body of POST /api/chat: message (absent or empty is rejected by the
falsiness check), sessionId defaulting to the literal default, and the
streaming flag (true only when the body holds the boolean true). -/
structure ChatRequest where
  message : Option String
  sessionId : Option String
  streaming : Bool
deriving DecidableEq, Repr

/-- Outcome of the buffered completion call chatModel.invoke: an answer
text, or a thrown error. -/
inductive InvokeResult where
  | ok (answer : String)
  | err
deriving DecidableEq, Repr

/-- Outcome of the streaming completion call chatModel.stream: the fragment
contents in arrival order, and whether the stream ended normally (ok true)
or raised mid-stream after the listed fragments (ok false). -/
structure StreamResult where
  frags : List String
  ok : Bool
deriving DecidableEq, Repr

/-- Oracle for the external completion service: what invoke and stream
would return for this request. -/
structure ModelOracle where
  invokeRes : InvokeResult
  streamRes : StreamResult
deriving DecidableEq, Repr

/-- Caller-visible outcome of the handler: 400 with an error body, 500 with
an error body, the non-streaming JSON message body, or the SSE stream with
its written events and whether the done event was reached. -/
inductive ChatResponse where
  | badRequest (error : String)
  | serverError (error : String)
  | jsonMessage (message : String)
  | sseStream (events : List String) (completed : Bool)
deriving DecidableEq, Repr

/-- Observable steps of one handler run, in execution order: the user-turn
insert, the issue of the completion call, each received fragment, the end of
the completion call, the assistant-turn insert, and the final response
write. -/
inductive Ev where
  | persistUser (r : Row)
  | callStart (messages : List LCMessage)
  | fragment (c : String)
  | callEnd
  | persistAssistant (r : Row)
  | respond
deriving DecidableEq, Repr

/-- Phase number of an event, used to state that a trace follows the
persist-call-drain-persist-respond order. -/
def evPhase : Ev → Nat
  | .persistUser _ => 0
  | .callStart _ => 1
  | .fragment _ => 2
  | .callEnd => 3
  | .persistAssistant _ => 4
  | .respond => 5

/-- Result of one handler run: the store afterwards, the response, the
ordered trace of observable steps, and the raw SSE writes. -/
structure HandlerOut where
  store : Store
  response : ChatResponse
  trace : List Ev
  sse : List String
deriving DecidableEq, Repr

/-- The POST /api/chat handler of the Express server, translated step by
step: falsiness check on message, saveMessage of the user turn,
getConversationHistory, transcript assembly, then either the streaming
branch (forward each fragment as an SSE event while accumulating, persist
the accumulated text, emit the done event) or the buffered branch (invoke,
persist the answer, respond with JSON).  A thrown completion error reaches
the catch block, which answers 500 and performs no further store write; in
the streaming branch the events already written stay written and no done
event follows.  tUser and tAsst are CURRENT_TIMESTAMP at the two inserts. -/
def chatHandler (s : Store) (req : ChatRequest) (oracle : ModelOracle)
    (tUser tAsst : Nat) : HandlerOut :=
  match req.message with
  | none => { store := s, response := .badRequest "Message is required", trace := [], sse := [] }
  | some msg =>
    if msg = "" then
      { store := s, response := .badRequest "Message is required", trace := [], sse := [] }
    else
      let sid := req.sessionId.getD "default"
      let su := saveMessage s { session_id := sid, role := .user, content := msg } tUser
      let s1 := su.1
      let userRow : Row :=
        { id := s.nextId, session_id := sid, role := .user, content := msg, timestamp := tUser }
      let history := getConversationHistory s1 sid
      let langchainMessages := assembleTranscript history msg
      if req.streaming then
        let frags := oracle.streamRes.frags
        let fullResponse := frags.foldl (fun acc c => acc ++ c) ""
        let events := frags.map contentEventData
        if oracle.streamRes.ok then
          let sa := saveMessage s1
            { session_id := sid, role := .assistant, content := fullResponse } tAsst
          let asstRow : Row :=
            { id := s1.nextId, session_id := sid, role := .assistant,
              content := fullResponse, timestamp := tAsst }
          { store := sa.1,
            response := .sseStream (events ++ [doneEventData]) true,
            trace := .persistUser userRow :: .callStart langchainMessages ::
              (frags.map Ev.fragment ++ [.callEnd, .persistAssistant asstRow, .respond]),
            sse := events ++ [doneEventData] }
        else
          { store := s1,
            response := .sseStream events false,
            trace := .persistUser userRow :: .callStart langchainMessages ::
              frags.map Ev.fragment,
            sse := events }
      else
        match oracle.invokeRes with
        | .ok answer =>
          let sa := saveMessage s1
            { session_id := sid, role := .assistant, content := answer } tAsst
          let asstRow : Row :=
            { id := s1.nextId, session_id := sid, role := .assistant,
              content := answer, timestamp := tAsst }
          { store := sa.1,
            response := .jsonMessage answer,
            trace := [.persistUser userRow, .callStart langchainMessages,
              .callEnd, .persistAssistant asstRow, .respond],
            sse := [] }
        | .err =>
          { store := s1,
            response := .serverError "Internal server error",
            trace := [.persistUser userRow, .callStart langchainMessages],
            sse := [] }

/-- Number of placeholder rows (assistant role, empty content) a session has
in the store. -/
def placeholderCount (s : Store) (x : String) : Nat :=
  (s.rows.filter (fun r => r.session_id = x ∧ r.role = .assistant ∧ r.content = "")).length

/-- Fresh database as initDatabase leaves it: no rows, AUTOINCREMENT at 1. -/
def emptyStore : Store := { rows := [], nextId := 1 }

/-- First of two same-timestamp rows used to exhibit the missing tiebreak in
the history query. -/
def rowTieA : Row :=
  { id := 1, session_id := "s", role := .user, content := "a", timestamp := 5 }

/-- Second row with the same timestamp as rowTieA but a larger id. -/
def rowTieB : Row :=
  { id := 2, session_id := "s", role := .assistant, content := "b", timestamp := 5 }

/-- Store holding two rows of one session inserted within the same
CURRENT_TIMESTAMP second, as consecutive chat turns are. -/
def storeTie : Store := { rows := [rowTieA, rowTieB], nextId := 3 }

/-- Prior assistant turn of a session, inserted at timestamp second 5. -/
def rowPrior : Row :=
  { id := 1, session_id := "s", role := .assistant, content := "p", timestamp := 5 }

/-- User turn the handler persists into storePrior within the same
CURRENT_TIMESTAMP second as rowPrior. -/
def rowFresh : Row :=
  { id := 2, session_id := "s", role := .user, content := "hi", timestamp := 5 }

/-- Store holding one prior turn, about to receive a same-second insert. -/
def storePrior : Store := { rows := [rowPrior], nextId := 2 }

theorem insertTS_perm (r : Row) (l : List Row) : (insertTS r l).Perm (r :: l) := by
  induction l with
  | nil => simp [insertTS]
  | cons x xs ih =>
    unfold insertTS
    split
    · exact List.Perm.refl _
    · exact (ih.cons x).trans (List.Perm.swap r x xs)

theorem sortTS_perm (l : List Row) : (sortTS l).Perm l := by
  induction l with
  | nil => simp [sortTS]
  | cons x xs ih => exact (insertTS_perm x (sortTS xs)).trans (ih.cons x)

theorem insertTS_sorted (r : Row) (l : List Row)
    (h : l.Pairwise (fun a b => a.timestamp ≤ b.timestamp)) :
    (insertTS r l).Pairwise (fun a b => a.timestamp ≤ b.timestamp) := by
  induction l with
  | nil => simp [insertTS]
  | cons x xs ih =>
    rcases List.pairwise_cons.mp h with ⟨hx, hxs⟩
    unfold insertTS
    split
    · next hc =>
      refine List.Pairwise.cons ?_ h
      intro b hb
      rcases List.mem_cons.mp hb with hb | hb
      · exact hb ▸ hc
      · exact Nat.le_trans hc (hx b hb)
    · next hc =>
      refine List.Pairwise.cons ?_ (ih hxs)
      intro b hb
      rcases List.mem_cons.mp ((insertTS_perm r xs).mem_iff.mp hb) with hb | hb
      · exact hb ▸ Nat.le_of_not_le hc
      · exact hx b hb

theorem sortTS_sorted (l : List Row) :
    (sortTS l).Pairwise (fun a b => a.timestamp ≤ b.timestamp) := by
  induction l with
  | nil => simp [sortTS]
  | cons x xs ih => exact insertTS_sorted x (sortTS xs) ih

theorem insertDesc_perm (a : String) (l : List String) :
    (insertDesc a l).Perm (a :: l) := by
  induction l with
  | nil => simp [insertDesc]
  | cons x xs ih =>
    unfold insertDesc
    split
    · exact List.Perm.refl _
    · exact (ih.cons x).trans (List.Perm.swap a x xs)

theorem sortDesc_perm (l : List String) : (sortDesc l).Perm l := by
  induction l with
  | nil => simp [sortDesc]
  | cons x xs ih => exact (insertDesc_perm x (sortDesc xs)).trans (ih.cons x)

theorem insertDesc_sorted (a : String) (l : List String)
    (h : l.Pairwise (fun x y => y ≤ x)) :
    (insertDesc a l).Pairwise (fun x y => y ≤ x) := by
  induction l with
  | nil => simp [insertDesc]
  | cons x xs ih =>
    rcases List.pairwise_cons.mp h with ⟨hx, hxs⟩
    unfold insertDesc
    split
    · next hc =>
      refine List.Pairwise.cons ?_ h
      intro b hb
      rcases List.mem_cons.mp hb with hb | hb
      · exact hb ▸ le_of_lt hc
      · exact le_trans (hx b hb) (le_of_lt hc)
    · next hc =>
      refine List.Pairwise.cons ?_ (ih hxs)
      intro b hb
      rcases List.mem_cons.mp ((insertDesc_perm a xs).mem_iff.mp hb) with hb | hb
      · exact hb ▸ le_of_not_lt hc
      · exact hx b hb

theorem sortDesc_sorted (l : List String) :
    (sortDesc l).Pairwise (fun x y => y ≤ x) := by
  induction l with
  | nil => simp [sortDesc]
  | cons x xs ih => exact insertDesc_sorted x (sortDesc xs) ih

theorem mem_getAllSessions (s : Store) (a : String) :
    a ∈ getAllSessions s ↔ ∃ r ∈ s.rows, r.session_id = a := by
  unfold getAllSessions
  rw [(sortDesc_perm _).mem_iff, List.mem_dedup, List.mem_map]

theorem sessionRows_saveMessage (s : Store) (sid : String) (m : Message) (t : Nat)
    (hsid : m.session_id = sid) :
    sessionRows (saveMessage s m t).1 sid
      = sessionRows s sid ++
        [{ id := s.nextId, session_id := m.session_id, role := m.role,
           content := m.content, timestamp := t }] := by
  unfold sessionRows saveMessage
  simp [List.filter_append, hsid]

/-- Claim C2, counterexample: the history query orders by the timestamp
column alone, so for two rows inserted within the same timestamp second the
SQL contract historyResultSpec admits a result whose equal-timestamp rows
are in descending id order, and admits two distinct results for one store
state — the claimed id tiebreak and the claimed determinism are not
guaranteed by the query. -/
theorem history_tiebreak_counterexample :
    historyResultSpec storeTie "s" [rowTieB, rowTieA]
    ∧ historyResultSpec storeTie "s" [rowTieA, rowTieB]
    ∧ ¬ tieBrokenById [rowTieB, rowTieA]
    ∧ [rowTieB, rowTieA] ≠ [rowTieA, rowTieB] := by
  refine ⟨⟨?_, ?_⟩, ⟨?_, ?_⟩, ?_, ?_⟩
  · decide
  · simp [List.chain'_cons, rowTieA, rowTieB]
  · decide
  · simp [List.chain'_cons, rowTieA, rowTieB]
  · simp [tieBrokenById, List.chain'_cons, rowTieA, rowTieB]
  · decide

/-- Claim C2, amended: history returns a permutation of the session rows in
non-decreasing created_at order; the relative order of rows with equal
created_at is not fixed by the query (the ORDER BY has no id tiebreaker), so
determinism holds only up to tie order. -/
theorem history_timestamp_sorted_perm (s : Store) (sid : String) :
    historyResultSpec s sid (getConversationHistory s sid) :=
  ⟨sortTS_perm _, (sortTS_sorted _).chain'⟩

/-- Claim C5, counterexample: saveMessage persists a row whose timestamp is
the store-assigned CURRENT_TIMESTAMP, but the value it returns is the spread
of the input with only id overwritten — its timestamp field stays the caller
input (absent here), not the store-assigned created_at, so the returned Turn
is not complete as claimed. -/
theorem saveMessage_timestamp_counterexample :
    (saveMessage emptyStore { session_id := "s", role := .user, content := "hi" } 42).2.timestamp
      = none
    ∧ ((saveMessage emptyStore { session_id := "s", role := .user, content := "hi" } 42).1.rows.map
        (fun r => r.timestamp)) = [42]
    ∧ (saveMessage emptyStore { session_id := "s", role := .user, content := "hi" } 42).2.timestamp
      ≠ some 42 := by
  refine ⟨rfl, rfl, ?_⟩
  decide

/-- Claim C5, amended: saveMessage durably appends exactly one row carrying
the caller fields together with the store-assigned id and the store-assigned
created_at, and returns the caller message with the store-assigned id
attached; the timestamp field of the returned value is the caller input, not
the store-assigned created_at. -/
theorem saveMessage_amended_spec (s : Store) (m : Message) (t : Nat) :
    ∃ r : Row, (saveMessage s m t).1.rows = s.rows ++ [r]
      ∧ r.id = s.nextId ∧ r.session_id = m.session_id ∧ r.role = m.role
      ∧ r.content = m.content ∧ r.timestamp = t
      ∧ (saveMessage s m t).1.nextId = s.nextId + 1
      ∧ (saveMessage s m t).2.id = some s.nextId
      ∧ (saveMessage s m t).2.session_id = m.session_id
      ∧ (saveMessage s m t).2.role = m.role
      ∧ (saveMessage s m t).2.content = m.content
      ∧ (saveMessage s m t).2.timestamp = m.timestamp :=
  ⟨_, rfl, rfl, rfl, rfl, rfl, rfl, rfl, rfl, rfl, rfl, rfl, rfl⟩

/-- Claim C7: createSession inserts exactly one placeholder row with
assistant role and empty content; afterwards the session id appears in
getAllSessions and its history is non-empty; repeated calls each add one
more placeholder (two calls add two), with no deduplication. -/
theorem createSession_spec (s : Store) (x : String) (t u : Nat) :
    (createSession s x t).rows
        = s.rows ++ [{ id := s.nextId, session_id := x, role := .assistant,
                       content := "", timestamp := t }]
    ∧ x ∈ getAllSessions (createSession s x t)
    ∧ getConversationHistory (createSession s x t) x ≠ []
    ∧ placeholderCount (createSession s x t) x = placeholderCount s x + 1
    ∧ placeholderCount (createSession (createSession s x t) x u) x
        = placeholderCount s x + 2 := by
  have hmem : (Row.mk s.nextId x .assistant "" t) ∈ sessionRows (createSession s x t) x := by
    simp [sessionRows, createSession]
  have hcount : ∀ (s' : Store) (v : Nat),
      placeholderCount (createSession s' x v) x = placeholderCount s' x + 1 := by
    intro s' v
    simp [placeholderCount, createSession, List.filter_append]
  refine ⟨rfl, ?_, ?_, hcount s t, ?_⟩
  · exact (mem_getAllSessions _ x).mpr
      ⟨Row.mk s.nextId x .assistant "" t, by simp [createSession], rfl⟩
  · intro hEmpty
    have hm := (sortTS_perm (sessionRows (createSession s x t) x)).mem_iff.mpr hmem
    rw [show sortTS (sessionRows (createSession s x t) x)
          = getConversationHistory (createSession s x t) x from rfl, hEmpty] at hm
    exact absurd hm (List.not_mem_nil _)
  · rw [hcount, hcount]

/-- Claim C8: deleteSession removes every row of the session, so its history
becomes empty and its id vanishes from getAllSessions; it is idempotent, and
on a session with no rows it leaves the store unchanged. -/
theorem deleteSession_spec (s : Store) (sid : String) :
    getConversationHistory (deleteSession s sid) sid = []
    ∧ sid ∉ getAllSessions (deleteSession s sid)
    ∧ deleteSession (deleteSession s sid) sid = deleteSession s sid
    ∧ ((∀ r ∈ s.rows, r.session_id ≠ sid) → deleteSession s sid = s) := by
  have hrows : sessionRows (deleteSession s sid) sid = [] := by
    apply List.filter_eq_nil_iff.mpr
    intro r hr
    rcases List.mem_filter.mp hr with ⟨_, hp⟩
    simpa using of_decide_eq_true hp
  have hidem : (s.rows.filter (fun r => ¬ r.session_id = sid)).filter
      (fun r => ¬ r.session_id = sid) = s.rows.filter (fun r => ¬ r.session_id = sid) :=
    List.filter_eq_self.mpr (fun r hr => (List.mem_filter.mp hr).2)
  refine ⟨?_, ?_, ?_, ?_⟩
  · unfold getConversationHistory
    rw [hrows]
    rfl
  · intro hmem
    rcases (mem_getAllSessions _ sid).mp hmem with ⟨r, hr, he⟩
    rcases List.mem_filter.mp hr with ⟨_, hp⟩
    exact absurd he (of_decide_eq_true hp)
  · simp [deleteSession, hidem]
  · intro hnone
    have h4 : s.rows.filter (fun r => ¬ r.session_id = sid) = s.rows :=
      List.filter_eq_self.mpr (fun r hr => by simpa using hnone r hr)
    calc deleteSession s sid
        = { s with rows := s.rows.filter (fun r => ¬ r.session_id = sid) } := rfl
      _ = { s with rows := s.rows } := by rw [h4]
      _ = s := rfl

/-- Claim C9: getAllSessions lists every session id present in the store
exactly once (no duplicates, membership exactly for ids having a row),
sorted strictly descending by session id; as a pure function of the store
state the result is stable across calls with no intervening write. -/
theorem getAllSessions_spec (s : Store) :
    (getAllSessions s).Nodup
    ∧ (∀ a, a ∈ getAllSessions s ↔ ∃ r ∈ s.rows, r.session_id = a)
    ∧ (getAllSessions s).Pairwise (fun a b => b < a) := by
  have hnd : (getAllSessions s).Nodup :=
    ((sortDesc_perm _).nodup_iff).mpr (List.nodup_dedup _)
  refine ⟨hnd, mem_getAllSessions s, ?_⟩
  have hs : (getAllSessions s).Pairwise (fun a b => b ≤ a) := sortDesc_sorted _
  exact (hs.and hnd).imp (fun hab => lt_of_le_of_ne hab.1 (Ne.symm hab.2))

theorem fragment_phases_chain (fs : List String) (l : List Nat)
    (h : l.Chain' (· ≤ ·)) (h2 : ∀ x ∈ l.head?, (2:Nat) ≤ x) :
    ((fs.map (fun _ => (2:Nat))) ++ l).Chain' (· ≤ ·) ∧
      (∀ x ∈ ((fs.map (fun _ => (2:Nat))) ++ l).head?, (2:Nat) ≤ x) := by
  induction fs with
  | nil => exact ⟨h, h2⟩
  | cons f fs ih =>
    rcases ih with ⟨ch, hd⟩
    refine ⟨?_, ?_⟩
    · rw [List.map_cons, List.cons_append]
      exact List.chain'_cons'.mpr ⟨fun y hy => hd y hy, ch⟩
    · intro x hx
      rw [List.map_cons, List.cons_append, List.head?_cons, Option.mem_def,
        Option.some_inj] at hx
      omega

/-- Claim C6: a chat request whose message is missing or empty is answered
with the 400 error body and the store is left exactly as it was — no turn is
persisted by the rejected call. -/
theorem empty_message_rejected (s : Store) (req : ChatRequest) (oracle : ModelOracle)
    (tUser tAsst : Nat) (h : req.message = none ∨ req.message = some "") :
    (chatHandler s req oracle tUser tAsst).response = .badRequest "Message is required"
    ∧ (chatHandler s req oracle tUser tAsst).store = s := by
  rcases req with ⟨om, osid, str⟩
  rcases h with h | h <;>
    (simp only [ChatRequest.message] at h; subst h; exact ⟨rfl, rfl⟩)

/-- Claim C6 witness at a concrete empty-message request. -/
theorem empty_message_rejected_witness :
    (chatHandler emptyStore ⟨some "", some "s1", false⟩
        ⟨.ok "a", ⟨[], true⟩⟩ 3 4).response = .badRequest "Message is required"
    ∧ (chatHandler emptyStore ⟨some "", some "s1", false⟩
        ⟨.ok "a", ⟨[], true⟩⟩ 3 4).store = emptyStore :=
  empty_message_rejected emptyStore ⟨some "", some "s1", false⟩
    ⟨.ok "a", ⟨[], true⟩⟩ 3 4 (Or.inr rfl)

/-- Claim C10: for a successful non-streaming chat call, the message string
of the JSON response body is exactly the content of the assistant row the
same request persisted — the caller-visible answer and the stored assistant
turn coincide. -/
theorem nonstreaming_roundtrip (s : Store) (req : ChatRequest) (oracle : ModelOracle)
    (tUser tAsst : Nat) (msg answer : String) (hmsg : req.message = some msg)
    (hne : msg ≠ "") (hstr : req.streaming = false)
    (hok : oracle.invokeRes = .ok answer) :
    ∃ r : Row, (chatHandler s req oracle tUser tAsst).store.rows.getLast? = some r
      ∧ r.role = .assistant ∧ r.content = answer
      ∧ r.session_id = req.sessionId.getD "default"
      ∧ (chatHandler s req oracle tUser tAsst).response = .jsonMessage r.content := by
  rcases req with ⟨om, osid, str⟩
  simp only [ChatRequest.message] at hmsg
  simp only [ChatRequest.streaming] at hstr
  subst hmsg
  subst hstr
  rcases oracle with ⟨ir, sr⟩
  simp only [ModelOracle.invokeRes] at hok
  subst hok
  refine ⟨Row.mk (s.nextId + 1) (osid.getD "default") .assistant answer tAsst,
    ?_, rfl, rfl, rfl, ?_⟩
  · simp [chatHandler, hne, saveMessage]
  · simp [chatHandler, hne, saveMessage]

/-- Claim C10 witness at a concrete request and oracle answer. -/
theorem nonstreaming_roundtrip_witness :
    ∃ r : Row, (chatHandler emptyStore ⟨some "hi", some "s1", false⟩
        ⟨.ok "yo", ⟨[], true⟩⟩ 1 2).store.rows.getLast? = some r
      ∧ r.role = .assistant ∧ r.content = "yo"
      ∧ r.session_id = (some "s1" : Option String).getD "default"
      ∧ (chatHandler emptyStore ⟨some "hi", some "s1", false⟩
          ⟨.ok "yo", ⟨[], true⟩⟩ 1 2).response = .jsonMessage r.content :=
  nonstreaming_roundtrip emptyStore ⟨some "hi", some "s1", false⟩
    ⟨.ok "yo", ⟨[], true⟩⟩ 1 2 "hi" "yo" rfl (by decide) rfl rfl

/-- Claim C3, counterexample: with the prior turn and the fresh user turn
inserted within the same created_at second (the common consecutive-turn
case), the SQL contract of the history query admits the result
[rowFresh, rowPrior]; its last element is not the just-persisted turn, and
the assembly over this legal history is not the prior session turns followed
by the incoming text — slice(0,-1) drops the prior turn and keeps the stored
user copy, so the claim fails at this input. -/
theorem transcript_tie_counterexample :
    historyResultSpec (saveMessage storePrior (Message.mk none "s" .user "hi" none) 5).1 "s"
      [rowFresh, rowPrior]
    ∧ [rowFresh, rowPrior].getLast? ≠ some rowFresh
    ∧ assembleTranscript [rowFresh, rowPrior] "hi"
        ≠ (sessionRows storePrior "s").map rowToLC ++ [.human "hi"] := by
  refine ⟨⟨?_, ?_⟩, ?_, ?_⟩
  · decide
  · simp [List.chain'_cons, rowFresh, rowPrior]
  · decide
  · decide

/-- Claim C3, amended: for every history result the query contract admits,
the assembled transcript is that history with its last element removed,
mapped one to one role-preserving in history order with no filtering,
followed by exactly one HumanMessage carrying the incoming text, so its
length equals the history length; and when the created_at of the fresh turn
strictly exceeds that of every prior turn of the session, the removed last
element is exactly the just-persisted copy and the remaining turns are
exactly the prior session turns.  With an equal created_at (a same-second
insert) the removed element can be a different turn, as the counterexample
shows, so the strict-dominance hypothesis cannot be dropped. -/
theorem transcript_assembly_amended (s : Store) (sid msg : String) (t : Nat)
    (l : List Row)
    (hl : historyResultSpec (saveMessage s (Message.mk none sid .user msg none) t).1 sid l)
    (hmono : ∀ r ∈ s.rows, r.session_id = sid → r.timestamp < t) :
    (assembleTranscript l msg).length = l.length
    ∧ l.getLast? = some (Row.mk s.nextId sid .user msg t)
    ∧ (l.dropLast).Perm (sessionRows s sid)
    ∧ (∀ i, i < l.length - 1 →
        (assembleTranscript l msg)[i]? = (l[i]?).map rowToLC)
    ∧ (assembleTranscript l msg)[l.length - 1]? = some (.human msg) := by
  obtain ⟨hperm, hchain⟩ := hl
  have hsr : sessionRows (saveMessage s (Message.mk none sid .user msg none) t).1 sid
      = sessionRows s sid ++ [Row.mk s.nextId sid .user msg t] :=
    sessionRows_saveMessage s sid (Message.mk none sid .user msg none) t rfl
  rw [hsr] at hperm
  have hu_mem : Row.mk s.nextId sid .user msg t ∈ l := hperm.mem_iff.mpr (by simp)
  have hne_nil : l ≠ [] := by
    intro h
    rw [h] at hu_mem
    exact absurd hu_mem (List.not_mem_nil _)
  obtain ⟨init, last, hdecomp⟩ : ∃ init last, l = init ++ [last] := by
    rcases List.eq_nil_or_concat l with h | ⟨L, b, h⟩
    · exact absurd h hne_nil
    · exact ⟨L, b, by simpa [List.concat_eq_append] using h⟩
  haveI : IsTrans Row (fun a b => a.timestamp ≤ b.timestamp) :=
    ⟨fun a b c hab hbc => le_trans hab hbc⟩
  have hp : l.Pairwise (fun a b => a.timestamp ≤ b.timestamp) :=
    List.chain'_iff_pairwise.mp hchain
  have hsorted : ∀ x ∈ init, x.timestamp ≤ last.timestamp := by
    rw [hdecomp, List.pairwise_append] at hp
    intro x hx
    exact hp.2.2 x hx last (by simp)
  have hprior_ts : ∀ x ∈ sessionRows s sid, x.timestamp < t := by
    intro x hx
    rcases List.mem_filter.mp hx with ⟨hmem, hpx⟩
    exact hmono x hmem (of_decide_eq_true hpx)
  have hlast_mem : last ∈ sessionRows s sid ++ [Row.mk s.nextId sid .user msg t] := by
    refine hperm.mem_iff.mp ?_
    rw [hdecomp]
    simp
  have hlast_u : last = Row.mk s.nextId sid .user msg t := by
    rcases List.mem_append.mp hlast_mem with h | h
    · exfalso
      have hlt : last.timestamp < t := hprior_ts last h
      have huinit : Row.mk s.nextId sid .user msg t ∈ init := by
        rw [hdecomp] at hu_mem
        rcases List.mem_append.mp hu_mem with h2 | h2
        · exact h2
        · exfalso
          have he : Row.mk s.nextId sid .user msg t = last := List.mem_singleton.mp h2
          rw [← he] at hlt
          exact absurd hlt (lt_irrefl t)
      have hle : t ≤ last.timestamp := hsorted _ huinit
      omega
    · exact List.mem_singleton.mp h
  have hinit_perm : init.Perm (sessionRows s sid) := by
    have h2 := hperm
    rw [hdecomp, hlast_u] at h2
    exact (List.perm_append_right_iff _).mp h2
  refine ⟨?_, ?_, ?_, ?_, ?_⟩
  · rw [hdecomp]
    simp [assembleTranscript, List.dropLast_concat]
  · rw [hdecomp, hlast_u]
    simp [List.getLast?_concat]
  · rw [hdecomp, List.dropLast_concat]
    exact hinit_perm
  · intro i hi
    rw [hdecomp] at hi ⊢
    simp only [List.length_append, List.length_singleton, Nat.add_sub_cancel] at hi
    rw [assembleTranscript, List.dropLast_concat,
      List.getElem?_append_left (by simpa using hi),
      List.getElem?_append_left hi, List.getElem?_map]
  · rw [hdecomp]
    rw [assembleTranscript, List.dropLast_concat]
    simp only [List.length_append, List.length_singleton, Nat.add_sub_cancel]
    have hlen : init.length = (init.map rowToLC).length := by simp
    rw [hlen, List.getElem?_concat_length]

/-- Claim C3 witness: a concrete later-second insert over a one-turn store,
with the legal history given explicitly. -/
theorem transcript_assembly_amended_witness :
    (assembleTranscript [rowPrior, Row.mk 2 "s" .user "hi" 9] "hi").length
        = ([rowPrior, Row.mk 2 "s" .user "hi" 9] : List Row).length
    ∧ ([rowPrior, Row.mk 2 "s" .user "hi" 9] : List Row).getLast?
        = some (Row.mk storePrior.nextId "s" .user "hi" 9)
    ∧ (([rowPrior, Row.mk 2 "s" .user "hi" 9] : List Row).dropLast).Perm
        (sessionRows storePrior "s")
    ∧ (∀ i, i < ([rowPrior, Row.mk 2 "s" .user "hi" 9] : List Row).length - 1 →
        (assembleTranscript [rowPrior, Row.mk 2 "s" .user "hi" 9] "hi")[i]?
          = (([rowPrior, Row.mk 2 "s" .user "hi" 9] : List Row)[i]?).map rowToLC)
    ∧ (assembleTranscript [rowPrior, Row.mk 2 "s" .user "hi" 9] "hi")[
        ([rowPrior, Row.mk 2 "s" .user "hi" 9] : List Row).length - 1]?
        = some (.human "hi") :=
  transcript_assembly_amended storePrior "s" "hi" 9 [rowPrior, Row.mk 2 "s" .user "hi" 9]
    ⟨by decide, by simp [List.chain'_cons, rowPrior]⟩ (by decide)

/-- Claim C4: for a streaming chat call that drains to completion, the SSE
writes are exactly one content event per upstream fragment in arrival order
followed by the single done event, and the concatenation of the fragment
contents equals the content of the assistant row persisted after the stream
ends; the response is that event stream, completed. -/
theorem streaming_sse_roundtrip (s : Store) (req : ChatRequest) (oracle : ModelOracle)
    (tUser tAsst : Nat) (msg : String) (hmsg : req.message = some msg)
    (hne : msg ≠ "") (hstr : req.streaming = true)
    (hok : oracle.streamRes.ok = true) :
    (chatHandler s req oracle tUser tAsst).sse.length
      = oracle.streamRes.frags.length + 1
    ∧ (∀ i, i < oracle.streamRes.frags.length →
        (chatHandler s req oracle tUser tAsst).sse[i]?
          = (oracle.streamRes.frags[i]?).map contentEventData)
    ∧ (chatHandler s req oracle tUser tAsst).sse.getLast? = some doneEventData
    ∧ (∃ r : Row, (chatHandler s req oracle tUser tAsst).store.rows.getLast? = some r
        ∧ r.role = .assistant ∧ r.session_id = req.sessionId.getD "default"
        ∧ r.content = String.join oracle.streamRes.frags)
    ∧ (chatHandler s req oracle tUser tAsst).response
        = .sseStream ((chatHandler s req oracle tUser tAsst).sse) true := by
  rcases req with ⟨om, osid, str⟩
  simp only [ChatRequest.message] at hmsg
  simp only [ChatRequest.streaming] at hstr
  subst hmsg
  subst hstr
  rcases oracle with ⟨ir, ⟨fs, ok⟩⟩
  simp only [ModelOracle.streamRes] at hok
  subst hok
  refine ⟨?_, ?_, ?_, ?_, ?_⟩
  · simp [chatHandler, hne]
  · intro i hi
    have hsse : (chatHandler s ⟨some msg, osid, true⟩ ⟨ir, ⟨fs, true⟩⟩ tUser tAsst).sse
        = fs.map contentEventData ++ [doneEventData] := by
      simp [chatHandler, hne]
    simp only [StreamResult.frags] at hi ⊢
    rw [hsse, List.getElem?_append_left (by simpa using hi), List.getElem?_map]
  · simp [chatHandler, hne, List.getLast?_concat]
  · refine ⟨Row.mk (s.nextId + 1) (osid.getD "default") .assistant
      (fs.foldl (fun acc c => acc ++ c) "") tAsst, ?_, rfl, rfl, rfl⟩
    simp [chatHandler, hne, saveMessage]
  · simp [chatHandler, hne]

/-- Claim C4 witness at a concrete two-fragment stream. -/
theorem streaming_sse_roundtrip_witness :
    (chatHandler emptyStore ⟨some "hi", some "s1", true⟩
        ⟨.err, ⟨["He", "llo"], true⟩⟩ 1 2).sse.length
      = (StreamResult.mk ["He", "llo"] true).frags.length + 1
    ∧ (∀ i, i < (StreamResult.mk ["He", "llo"] true).frags.length →
        (chatHandler emptyStore ⟨some "hi", some "s1", true⟩
            ⟨.err, ⟨["He", "llo"], true⟩⟩ 1 2).sse[i]?
          = ((StreamResult.mk ["He", "llo"] true).frags[i]?).map contentEventData)
    ∧ (chatHandler emptyStore ⟨some "hi", some "s1", true⟩
        ⟨.err, ⟨["He", "llo"], true⟩⟩ 1 2).sse.getLast? = some doneEventData
    ∧ (∃ r : Row, (chatHandler emptyStore ⟨some "hi", some "s1", true⟩
          ⟨.err, ⟨["He", "llo"], true⟩⟩ 1 2).store.rows.getLast? = some r
        ∧ r.role = .assistant
        ∧ r.session_id = (ChatRequest.mk (some "hi") (some "s1") true).sessionId.getD "default"
        ∧ r.content = String.join (StreamResult.mk ["He", "llo"] true).frags)
    ∧ (chatHandler emptyStore ⟨some "hi", some "s1", true⟩
          ⟨.err, ⟨["He", "llo"], true⟩⟩ 1 2).response
        = .sseStream ((chatHandler emptyStore ⟨some "hi", some "s1", true⟩
            ⟨.err, ⟨["He", "llo"], true⟩⟩ 1 2).sse) true :=
  streaming_sse_roundtrip emptyStore ⟨some "hi", some "s1", true⟩
    ⟨.err, ⟨["He", "llo"], true⟩⟩ 1 2 "hi" rfl (by decide) rfl rfl

theorem stream_trace_phases (u a : Row) (A : List LCMessage) (fs : List String) :
    ((Ev.persistUser u :: Ev.callStart A ::
        (fs.map Ev.fragment ++ [Ev.callEnd, Ev.persistAssistant a, Ev.respond])).map
      evPhase).Chain' (· ≤ ·) := by
  have h345 : List.Chain' (fun x y => x ≤ y) ([3, 4, 5] : List Nat) := by
    simp [List.chain'_cons]
  have hhd : ∀ x ∈ ([3, 4, 5] : List Nat).head?, (2:Nat) ≤ x := by
    intro x hx
    rw [List.head?_cons, Option.mem_def, Option.some_inj] at hx
    omega
  obtain ⟨hch, hh⟩ := fragment_phases_chain fs [3, 4, 5] h345 hhd
  have hmapeq : (fs.map Ev.fragment).map evPhase = fs.map (fun _ => (2:Nat)) := by
    rw [List.map_map]
    rfl
  rw [List.map_cons, List.map_cons, List.map_append, hmapeq]
  refine List.chain'_cons'.mpr ⟨fun b _ => Nat.zero_le b,
    List.chain'_cons'.mpr ⟨fun b hb => ?_, hch⟩⟩
  exact le_trans (show (1:Nat) ≤ 2 by omega) (hh b hb)

theorem stream_fail_trace_phases (u : Row) (A : List LCMessage) (fs : List String) :
    ((Ev.persistUser u :: Ev.callStart A :: fs.map Ev.fragment).map
      evPhase).Chain' (· ≤ ·) := by
  obtain ⟨hch, hh⟩ := fragment_phases_chain fs []
    (by simp) (by intro x hx; simp at hx)
  have hmapeq : (fs.map Ev.fragment).map evPhase = fs.map (fun _ => (2:Nat)) := by
    rw [List.map_map]
    rfl
  have hmapeq2 : (fs.map Ev.fragment).map evPhase
      = fs.map (fun _ => (2:Nat)) ++ [] := by
    rw [hmapeq, List.append_nil]
  rw [List.map_cons, List.map_cons, hmapeq2]
  refine List.chain'_cons'.mpr ⟨fun b _ => Nat.zero_le b,
    List.chain'_cons'.mpr ⟨fun b hb => ?_, hch⟩⟩
  exact le_trans (show (1:Nat) ≤ 2 by omega) (hh b hb)

/-- Claim C1: for every accepted chat request, under any completion-service
behavior: the first observable step is the user-turn insert and the second is
the issue of the completion call (user persisted strictly before the call);
the trace phases are monotone, so any assistant-turn insert comes after the
completion call has fully completed or drained (after every fragment and the
call end); an assistant insert only happens in runs where the call ended; and
the persisted user row is in the final store in every outcome — it is never
rolled back when the completion call fails. -/
theorem chat_persist_order_no_rollback (s : Store) (req : ChatRequest)
    (oracle : ModelOracle) (tUser tAsst : Nat) (msg : String)
    (hmsg : req.message = some msg) (hne : msg ≠ "") :
    (chatHandler s req oracle tUser tAsst).trace[0]?
        = some (.persistUser (Row.mk s.nextId (req.sessionId.getD "default") .user msg tUser))
    ∧ (∃ ms, (chatHandler s req oracle tUser tAsst).trace[1]? = some (.callStart ms))
    ∧ ((chatHandler s req oracle tUser tAsst).trace.map evPhase).Chain' (· ≤ ·)
    ∧ (∀ r : Row, Ev.persistAssistant r ∈ (chatHandler s req oracle tUser tAsst).trace
        → Ev.callEnd ∈ (chatHandler s req oracle tUser tAsst).trace)
    ∧ Row.mk s.nextId (req.sessionId.getD "default") .user msg tUser
        ∈ (chatHandler s req oracle tUser tAsst).store.rows := by
  rcases req with ⟨om, osid, str⟩
  simp only [ChatRequest.message] at hmsg
  subst hmsg
  rcases oracle with ⟨ir, ⟨fs, ok⟩⟩
  cases str
  · cases ir with
    | ok answer =>
      refine ⟨by simp [chatHandler, hne],
        ⟨assembleTranscript (getConversationHistory
            (saveMessage s (Message.mk none (osid.getD "default") .user msg none) tUser).1
            (osid.getD "default")) msg, by simp [chatHandler, hne]⟩, ?_, ?_, ?_⟩
      · simp [chatHandler, hne, List.chain'_cons, evPhase]
      · intro r _
        simp [chatHandler, hne]
      · simp [chatHandler, hne, saveMessage]
    | err =>
      refine ⟨by simp [chatHandler, hne],
        ⟨assembleTranscript (getConversationHistory
            (saveMessage s (Message.mk none (osid.getD "default") .user msg none) tUser).1
            (osid.getD "default")) msg, by simp [chatHandler, hne]⟩, ?_, ?_, ?_⟩
      · simp [chatHandler, hne, List.chain'_cons, evPhase]
      · intro r hr
        simp [chatHandler, hne] at hr
      · simp [chatHandler, hne, saveMessage]
  · cases ok
    · refine ⟨by simp [chatHandler, hne],
        ⟨assembleTranscript (getConversationHistory
            (saveMessage s (Message.mk none (osid.getD "default") .user msg none) tUser).1
            (osid.getD "default")) msg, by simp [chatHandler, hne]⟩, ?_, ?_, ?_⟩
      · have h := stream_fail_trace_phases
          (Row.mk s.nextId (osid.getD "default") .user msg tUser)
          (assembleTranscript (getConversationHistory
            (saveMessage s (Message.mk none (osid.getD "default") .user msg none) tUser).1
            (osid.getD "default")) msg) fs
        simpa [chatHandler, hne] using h
      · intro r hr
        simp [chatHandler, hne] at hr
      · simp [chatHandler, hne, saveMessage]
    · refine ⟨by simp [chatHandler, hne],
        ⟨assembleTranscript (getConversationHistory
            (saveMessage s (Message.mk none (osid.getD "default") .user msg none) tUser).1
            (osid.getD "default")) msg, by simp [chatHandler, hne]⟩, ?_, ?_, ?_⟩
      · have h := stream_trace_phases
          (Row.mk s.nextId (osid.getD "default") .user msg tUser)
          (Row.mk (s.nextId + 1) (osid.getD "default") .assistant
            (fs.foldl (fun acc c => acc ++ c) "") tAsst)
          (assembleTranscript (getConversationHistory
            (saveMessage s (Message.mk none (osid.getD "default") .user msg none) tUser).1
            (osid.getD "default")) msg) fs
        simpa [chatHandler, hne, saveMessage] using h
      · intro r _
        simp [chatHandler, hne]
      · simp [chatHandler, hne, saveMessage]

/-- Claim C1 witness at a concrete request whose stream fails mid-flight:
the user turn is still first in the trace and still in the final store. -/
theorem chat_persist_order_no_rollback_witness :
    (chatHandler emptyStore ⟨some "hi", none, true⟩
        ⟨.err, ⟨["x"], false⟩⟩ 1 2).trace[0]?
        = some (.persistUser (Row.mk emptyStore.nextId "default" .user "hi" 1))
    ∧ (∃ ms, (chatHandler emptyStore ⟨some "hi", none, true⟩
        ⟨.err, ⟨["x"], false⟩⟩ 1 2).trace[1]? = some (.callStart ms))
    ∧ ((chatHandler emptyStore ⟨some "hi", none, true⟩
        ⟨.err, ⟨["x"], false⟩⟩ 1 2).trace.map evPhase).Chain' (· ≤ ·)
    ∧ (∀ r : Row, Ev.persistAssistant r ∈ (chatHandler emptyStore ⟨some "hi", none, true⟩
          ⟨.err, ⟨["x"], false⟩⟩ 1 2).trace
        → Ev.callEnd ∈ (chatHandler emptyStore ⟨some "hi", none, true⟩
          ⟨.err, ⟨["x"], false⟩⟩ 1 2).trace)
    ∧ Row.mk emptyStore.nextId "default" .user "hi" 1
        ∈ (chatHandler emptyStore ⟨some "hi", none, true⟩
          ⟨.err, ⟨["x"], false⟩⟩ 1 2).store.rows :=
  chat_persist_order_no_rollback emptyStore ⟨some "hi", none, true⟩
    ⟨.err, ⟨["x"], false⟩⟩ 1 2 "hi" rfl (by decide)

/-- Claim C8 witness: deletion applied to a concrete populated store and,
for the no-effect part, to a store with no matching rows. -/
theorem deleteSession_spec_witness :
    getConversationHistory (deleteSession storeTie "s") "s" = []
    ∧ "s" ∉ getAllSessions (deleteSession storeTie "s")
    ∧ deleteSession (deleteSession storeTie "s") "s" = deleteSession storeTie "s"
    ∧ deleteSession emptyStore "s" = emptyStore :=
  ⟨(deleteSession_spec storeTie "s").1, (deleteSession_spec storeTie "s").2.1,
   (deleteSession_spec storeTie "s").2.2.1,
   (deleteSession_spec emptyStore "s").2.2.2 (by simp [emptyStore])⟩
